import Mathlib

/-!
# Verified model of the libriscv ELF loader and register file

A shallow embedding of `src/lib/libriscv/memory_elf.cpp`
(`elf_base_address`, `section_by_name`, `resolve_symbol`,
`relocate_section`, `dynamic_linking`) and
`src/lib/libriscv/registers.hpp` (`Registers`).

The raw ELF image is a list of bytes; out-of-bounds reads yield 0.
Pointers into the image are modelled as natural-number offsets from the
start of the buffer; pointer differences that may be negative are taken
in `Int`.  The address width `W` of the machine (32- or 64-bit) is a
parameter `ElfClass`.
-/

set_option maxRecDepth 100000

namespace LibRiscv

/-- The raw ELF image: a byte buffer.  Entries are reduced mod 256 on read. -/
abbrev Bytes := List Nat

/-- Read the byte at index `i`; out-of-bounds reads yield 0. -/
def byteAt : Bytes → Nat → Nat
  | [], _ => 0
  | x :: _, 0 => x % 256
  | _ :: xs, n + 1 => byteAt xs n

/-- Read an `n`-byte little-endian unsigned integer at offset `off`. -/
def readLE (b : Bytes) (off : Nat) : Nat → Nat
  | 0 => 0
  | n + 1 => byteAt b off + 256 * readLE b (off + 1) n

/-- C `strnlen`: the number of bytes before the first NUL at `off`,
capped at the fuel. -/
def strnlen (b : Bytes) (off : Nat) : Nat → Nat
  | 0 => 0
  | n + 1 => if byteAt b off = 0 then 0 else strnlen b (off + 1) n + 1

/-- C `strncmp(s1, s2, n) == 0`, where `s1` lives in the buffer at `off`
and `s2` is the query byte string (its terminating NUL is implicit:
reads past its end give 0, as `c_str()` does). -/
def strncmpEq (b : Bytes) (off : Nat) (q : List Nat) : Nat → Bool
  | 0 => true
  | n + 1 =>
    let c1 := byteAt b off
    let c2 := q.headD 0
    if c1 = c2 then
      (if c1 = 0 then true else strncmpEq b (off + 1) q.tail n)
    else false

/-- The `n` bytes of the buffer starting at `off` (the recovered string). -/
def strBytes (b : Bytes) (off n : Nat) : List Nat :=
  (List.range n).map (fun k => byteAt b (off + k))

/-- The NUL-terminated C string at `off` (reads past the buffer end give
0, so the string always terminates by the end of the buffer). -/
def cstring (b : Bytes) (off : Nat) : List Nat :=
  ((b.drop off).map (fun x => x % 256)).takeWhile (fun x => x ≠ 0)

/-- Modelled from the spec: the address width `W` is a compile-time
parameter (32-bit `W = 4` or 64-bit `W = 8`); structure sizes and field
offsets below follow the standard ELF32/ELF64 layouts that §6 of the
spec fixes as the bit-exact contract (the repository's `elf.hpp` with
these struct definitions is not part of the excerpt). -/
structure ElfClass where
  is64 : Bool
deriving DecidableEq

/-- Size in bytes of `address_t` (`Elf_Addr` / `Elf_Off`). -/
def addrSize (c : ElfClass) : Nat := if c.is64 then 8 else 4

/-- Bit width of `address_t`. -/
def addrBits (c : ElfClass) : Nat := 8 * addrSize c

/-- `sizeof(Elf::SectionHeader)`. -/
def shdrSize (c : ElfClass) : Nat := if c.is64 then 64 else 40

/-- `sizeof(Elf::Sym)`. -/
def symSize (c : ElfClass) : Nat := if c.is64 then 24 else 16

/-- `sizeof(Elf::Rela)`. -/
def relaSize (c : ElfClass) : Nat := if c.is64 then 24 else 12

/-- File offset of the `e_shoff` field in the ELF header. -/
def ehShoffOff (c : ElfClass) : Nat := if c.is64 then 0x28 else 0x20

/-- File offset of the `e_shnum` field in the ELF header. -/
def ehShnumOff (c : ElfClass) : Nat := if c.is64 then 0x3C else 0x30

/-- File offset of the `e_shstrndx` field in the ELF header. -/
def ehShstrndxOff (c : ElfClass) : Nat := if c.is64 then 0x3E else 0x32

/-- Offset of `sh_offset` inside a section header. -/
def shOffsetOff (c : ElfClass) : Nat := if c.is64 then 24 else 16

/-- Offset of `sh_size` inside a section header. -/
def shSizeOff (c : ElfClass) : Nat := if c.is64 then 32 else 20

/-- Offset of `st_info` inside a symbol entry. -/
def stInfoOff (c : ElfClass) : Nat := if c.is64 then 4 else 12

/-- Offset of `st_value` inside a symbol entry. -/
def stValueOff (c : ElfClass) : Nat := if c.is64 then 8 else 4

/-- Modelled from the spec: `Elf::RelaSym` extracts the symbol-table
index from `r_info` (`r_info >> 8` for ELF32, `r_info >> 32` for
ELF64). -/
def relaSym (c : ElfClass) (info : Nat) : Nat :=
  if c.is64 then info / 2 ^ 32 else info / 2 ^ 8

/-- Modelled from the spec: `Elf::SymbolType(st_info)` is the low
nibble `st_info & 0xF` (the ELF `ELF_ST_TYPE` type sub-field). -/
def SymbolType (st_info : Nat) : Nat := st_info % 16

/-- `Elf::STT_OBJECT`. -/
def STT_OBJECT : Nat := 1

/-- `Elf::STT_FUNC`. -/
def STT_FUNC : Nat := 2

/-- `elf_header()->e_shoff` read from the image. -/
def e_shoff (c : ElfClass) (b : Bytes) : Nat := readLE b (ehShoffOff c) (addrSize c)

/-- `elf_header()->e_shnum` read from the image. -/
def e_shnum (c : ElfClass) (b : Bytes) : Nat := readLE b (ehShnumOff c) 2

/-- `elf_header()->e_shstrndx` read from the image. -/
def e_shstrndx (c : ElfClass) (b : Bytes) : Nat := readLE b (ehShstrndxOff c) 2

/-- The fields of `Elf::SectionHeader` that the loader reads. -/
structure Shdr where
  sh_name : Nat
  sh_offset : Nat
  sh_size : Nat
deriving DecidableEq

/-- Read the section header stored at file offset `off`. -/
def readShdr (c : ElfClass) (b : Bytes) (off : Nat) : Shdr :=
  { sh_name := readLE b off 4
    sh_offset := readLE b (off + shOffsetOff c) (addrSize c)
    sh_size := readLE b (off + shSizeOff c) (addrSize c) }

/-- The fields of `Elf::Sym` that the loader reads. -/
structure Sym where
  st_name : Nat
  st_info : Nat
  st_value : Nat
deriving DecidableEq

/-- Read the symbol entry stored at file offset `off`. -/
def readSym (c : ElfClass) (b : Bytes) (off : Nat) : Sym :=
  { st_name := readLE b off 4
    st_info := byteAt b (off + stInfoOff c)
    st_value := readLE b (off + stValueOff c) (addrSize c) }

/-- The scan loop of `section_by_name`: for each header index `i`
(`fuel` indices remain), compute the candidate name pointer
`strings + shdr[i].sh_name`; fail if it is at or past the buffer end;
otherwise take its `strnlen`-bounded length and compare with the query
by length and then by `strncmp`. -/
def scanFrom (c : ElfClass) (b : Bytes) (q : List Nat) (strBase shoff : Nat) :
    Nat → Nat → Except Unit (Option Shdr)
  | _, 0 => .ok none
  | i, n + 1 =>
    let h := readShdr c b (shoff + i * shdrSize c)
    let shname := strBase + h.sh_name
    if b.length ≤ shname then .error ()
    else
      let len := strnlen b shname (b.length - shname)
      if len = q.length ∧ strncmpEq b shname q len then .ok (some h)
      else scanFrom c b q strBase shoff (i + 1) n

/-- `Memory<W>::section_by_name`.  The first guard is the C++
`e_shoff > m_binary.size() - sizeof(SectionHeader)` with the `size_t`
subtraction wrapping mod 2^64; the second compares the address of
`shdr[e_shstrndx]` against `endptr - sizeof(SectionHeader)` (a pointer
difference, taken in `Int`); the third checks that the one-past-last
section header does not exceed the buffer end. -/
def section_by_name (c : ElfClass) (b : Bytes) (q : List Nat) :
    Except Unit (Option Shdr) :=
  if e_shoff c b > (b.length + 2 ^ 64 - shdrSize c) % 2 ^ 64 then
    .error ()
  else if ((e_shoff c b + e_shstrndx c b * shdrSize c : Nat) : Int)
      > (b.length : Int) - (shdrSize c : Int) then
    .error ()
  else if e_shoff c b + e_shnum c b * shdrSize c > b.length then
    .error ()
  else
    scanFrom c b q
      (readShdr c b (e_shoff c b + e_shstrndx c b * shdrSize c)).sh_offset
      (e_shoff c b) 0 (e_shnum c b)

/-- The bytes of `".symtab"`. -/
def symtabName : List Nat := [46, 115, 121, 109, 116, 97, 98]

/-- The bytes of `".strtab"`. -/
def strtabName : List Nat := [46, 115, 116, 114, 116, 97, 98]

/-- The bytes of `".rela.dyn"`. -/
def relaDynName : List Nat := [46, 114, 101, 108, 97, 46, 100, 121, 110]

/-- The bytes of `".rela.plt"`. -/
def relaPltName : List Nat := [46, 114, 101, 108, 97, 46, 112, 108, 116]

/-- The bytes of `".dynsym"`. -/
def dynsymName : List Nat := [46, 100, 121, 110, 115, 121, 109]

/-- The bytes of `".shstrtab"`. -/
def shstrtabName : List Nat := [46, 115, 104, 115, 116, 114, 116, 97, 98]

/-- The scan loop of `resolve_symbol`: walk the symbol entries in file
order; for each, recover the NUL-terminated name at
`strtab + st_name` (no bounds check) and compare with the query
(`name.compare(symname) == 0`). -/
def symScan (c : ElfClass) (b : Bytes) (q : List Nat) (symBase strBase : Nat) :
    Nat → Nat → Option Sym
  | _, 0 => none
  | i, n + 1 =>
    let s := readSym c b (symBase + i * symSize c)
    if q = cstring b (strBase + s.st_name) then some s
    else symScan c b q symBase strBase (i + 1) n

/-- `Memory<W>::resolve_symbol`. -/
def resolve_symbol (c : ElfClass) (b : Bytes) (q : List Nat) :
    Except Unit (Option Sym) :=
  if b.isEmpty then .ok none
  else
    match section_by_name c b symtabName with
    | .error e => .error e
    | .ok none => .ok none
    | .ok (some symHdr) =>
      match section_by_name c b strtabName with
      | .error e => .error e
      | .ok none => .ok none
      | .ok (some strHdr) =>
        if symHdr.sh_size = 0 then .ok none
        else
          .ok (symScan c b q symHdr.sh_offset strHdr.sh_offset 0
            (symHdr.sh_size / symSize c))

/-- Modelled from the spec: the guest memory image, an external
collaborator exposing a fixed-width `write(address, value)` primitive.
Modelled as a total map from addresses to values. -/
abbrev Mem := Nat → Nat

/-- Modelled from the spec: `write<address_t>(addr, value)` stores the
value, truncated to the address width, at `addr`. -/
def memWrite (c : ElfClass) (m : Mem) (addr val : Nat) : Mem :=
  fun a => if a = addr then val % 2 ^ addrBits c else m a

/-- `Memory<W>::elf_base_address`.  `base` is the machine's
`DYLINK_BASE` constant (modelled from the spec: a fixed
`address_t`-typed dynamic-load-base constant, value not fixed by the
excerpt).  The addition `vaddr_base + offset` is performed at the
address width, and the wrap guard compares the sum against
`vaddr_base`. -/
def elf_base_address (c : ElfClass) (isDyn : Bool) (base offset : Nat) :
    Except Unit Nat :=
  if isDyn then
    let vbase := base % 2 ^ addrBits c
    if (vbase + offset) % 2 ^ addrBits c < vbase then .error ()
    else .ok ((vbase + offset) % 2 ^ addrBits c)
  else .ok offset

/-- One iteration of the `relocate_section` loop, for the relocation
entry stored at file offset `entOff`: decode `r_offset`/`r_info`,
index the symbol table at `RelaSym(r_info)` (no bounds check), and
patch `elf_base_address(r_offset)` with `st_value` only when the
symbol's type is `STT_FUNC` or `STT_OBJECT`. -/
def relocStep (c : ElfClass) (isDyn : Bool) (base : Nat) (b : Bytes)
    (dynOff entOff : Nat) (m : Mem) : Except Unit Mem :=
  let r_offset := readLE b entOff (addrSize c)
  let r_info := readLE b (entOff + addrSize c) (addrSize c)
  let sym := readSym c b (dynOff + relaSym c r_info * symSize c)
  if SymbolType sym.st_info = STT_FUNC ∨ SymbolType sym.st_info = STT_OBJECT then
    match elf_base_address c isDyn base r_offset with
    | .error e => .error e
    | .ok addr => .ok (memWrite c m addr sym.st_value)
  else .ok m

/-- The `relocate_section` loop over relocation entries `i`, `i+1`, …
(`fuel` entries remain). -/
def relocLoop (c : ElfClass) (isDyn : Bool) (base : Nat) (b : Bytes)
    (dynOff relaOff : Nat) : Nat → Nat → Mem → Except Unit Mem
  | _, 0, m => .ok m
  | i, n + 1, m =>
    match relocStep c isDyn base b dynOff (relaOff + i * relaSize c) m with
    | .error e => .error e
    | .ok m2 => relocLoop c isDyn base b dynOff relaOff (i + 1) n m2

/-- `Memory<W>::relocate_section`.  A missing relocation or symbol
section is a no-op; the entry count is `sh_size / sizeof(Rela)`. -/
def relocate_section (c : ElfClass) (isDyn : Bool) (base : Nat) (b : Bytes)
    (relaName symName : List Nat) (m : Mem) : Except Unit Mem :=
  match section_by_name c b relaName with
  | .error e => .error e
  | .ok none => .ok m
  | .ok (some rela) =>
    match section_by_name c b symName with
    | .error e => .error e
    | .ok none => .ok m
    | .ok (some dynHdr) =>
      relocLoop c isDyn base b dynHdr.sh_offset rela.sh_offset 0
        (rela.sh_size / relaSize c) m

/-- `Memory<W>::dynamic_linking`: ignores its ELF-header argument
(`(void)hdr`) and runs `relocate_section(".rela.dyn", ".dynsym")`
then `relocate_section(".rela.plt", ".dynsym")`. -/
def dynamic_linking (c : ElfClass) (isDyn : Bool) (base : Nat) (b : Bytes)
    (_hdr : Nat) (m : Mem) : Except Unit Mem :=
  match relocate_section c isDyn base b relaDynName dynsymName m with
  | .error e => .error e
  | .ok m2 => relocate_section c isDyn base b relaPltName dynsymName m2

/-- `riscv::Registers<W>`: an instruction counter, a program counter and
a `std::array` of exactly 32 general-purpose registers
(`registers.hpp`).  Register values are modelled as `Nat`. -/
structure Registers where
  counter : Nat
  pc : Nat
  m_reg : Mathlib.Vector Nat 32

/-- `Registers::get(idx)`: unchecked indexing `m_reg[idx]` (an
out-of-range index is undefined behaviour in the source; the model
returns 0 there). -/
def Registers.get (r : Registers) (idx : Nat) : Nat :=
  r.m_reg.toList.getD idx 0

/-- `Registers::at(idx)`: `m_reg.at(idx)`, which checks `idx < 32` and
throws `std::out_of_range` otherwise, without touching the array. -/
def Registers.at' (r : Registers) (idx : Nat) : Except Unit Nat :=
  if idx < 32 then .ok (r.m_reg.toList.getD idx 0) else .error ()

/-- The type sub-field of the symbol referenced by the relocation entry
stored at `entOff`, resolved against the symbol table at `dynOff`. -/
def stepSymType (c : ElfClass) (b : Bytes) (dynOff entOff : Nat) : Nat :=
  SymbolType (readSym c b
    (dynOff + relaSym c (readLE b (entOff + addrSize c) (addrSize c))
      * symSize c)).st_info

/-- The file offset of the section-name string table content
(`strings` in `section_by_name`): `shdr[e_shstrndx].sh_offset`. -/
def shstrBase (c : ElfClass) (b : Bytes) : Nat :=
  (readShdr c b (e_shoff c b + e_shstrndx c b * shdrSize c)).sh_offset

/-- The candidate name pointer of section `j`:
`strings + shdr[j].sh_name`. -/
def sectNameOff (c : ElfClass) (b : Bytes) (j : Nat) : Nat :=
  shstrBase c b + (readShdr c b (e_shoff c b + j * shdrSize c)).sh_name

/-- The `strnlen`-bounded length of section `j`'s name. -/
def sectNameLen (c : ElfClass) (b : Bytes) (j : Nat) : Nat :=
  strnlen b (sectNameOff c b j) (b.length - sectNameOff c b j)

/-- The recovered name string of section `j`. -/
def sectName (c : ElfClass) (b : Bytes) (j : Nat) : List Nat :=
  strBytes b (sectNameOff c b j) (sectNameLen c b j)

/-- The three header-validation guards of `section_by_name` all pass
(the image is well-formed enough to reach the scan loop). -/
def headerOk (c : ElfClass) (b : Bytes) : Prop :=
  ¬ (e_shoff c b > (b.length + 2 ^ 64 - shdrSize c) % 2 ^ 64) ∧
  ¬ (((e_shoff c b + e_shstrndx c b * shdrSize c : Nat) : Int)
      > (b.length : Int) - (shdrSize c : Int)) ∧
  ¬ (e_shoff c b + e_shnum c b * shdrSize c > b.length)

instance (c : ElfClass) (b : Bytes) : Decidable (headerOk c b) := by
  unfold headerOk
  infer_instance

/-! ## A concrete minimal dynamically-linked ELF64 image

Used to exercise the loader end to end: one `.rela.dyn` entry with
`r_offset = 0x1000` referencing `.dynsym` symbol 1, whose
`st_value = 0xAAAA` and whose `st_info` type is `STT_OBJECT`. -/

/-- The 64-bit ELF class. -/
def c64 : ElfClass := ⟨true⟩

/-- `v` as `n` little-endian bytes. -/
def natLE : Nat → Nat → List Nat
  | 0, _ => []
  | n + 1, v => v % 256 :: natLE n (v / 256)

/-- An ELF64 section header with the given `sh_name`, `sh_offset`,
`sh_size` and all other fields zero. -/
def mkShdr64 (name off size : Nat) : List Nat :=
  natLE 4 name ++ natLE 4 0 ++ natLE 8 0 ++ natLE 8 0 ++
  natLE 8 off ++ natLE 8 size ++ natLE 4 0 ++ natLE 4 0 ++
  natLE 8 0 ++ natLE 8 0

/-- The minimal image: ELF64 header (`e_shoff = 165`, `e_shnum = 4`,
`e_shstrndx = 3`), `.shstrtab` strings at 64, `.dynsym` (2 symbols) at
93, `.rela.dyn` (1 entry) at 141, section headers at 165; 421 bytes. -/
def linkImg : Bytes :=
  (List.replicate 0x28 0 ++ natLE 8 165 ++ List.replicate 12 0 ++
    natLE 2 4 ++ natLE 2 3) ++
  (0 :: relaDynName ++ [0] ++ dynsymName ++ [0] ++ shstrtabName ++ [0]) ++
  (List.replicate 24 0 ++
    (natLE 4 0 ++ [1, 0] ++ natLE 2 0 ++ natLE 8 0xAAAA ++ natLE 8 0)) ++
  (natLE 8 0x1000 ++ natLE 8 0x100000000 ++ natLE 8 0) ++
  mkShdr64 0 0 0 ++ mkShdr64 1 141 24 ++ mkShdr64 11 93 48 ++
  mkShdr64 19 64 29

/-! ## Basic bounds on the byte readers -/

theorem byteAt_lt (b : Bytes) (i : Nat) : byteAt b i < 256 := by
  induction b generalizing i with
  | nil => simp [byteAt]
  | cons x xs ih =>
    cases i with
    | zero => simpa [byteAt] using Nat.mod_lt x (by norm_num)
    | succ n => simpa [byteAt] using ih n

theorem readLE_lt (b : Bytes) (off n : Nat) : readLE b off n < 256 ^ n := by
  induction n generalizing off with
  | zero => simp [readLE]
  | succ n ih =>
    have h1 := byteAt_lt b off
    have h2 := ih (off + 1)
    have hp : 256 ^ (n + 1) = 256 ^ n * 256 := pow_succ 256 n
    simp only [readLE]
    omega

theorem e_shoff_lt (c : ElfClass) (b : Bytes) : e_shoff c b < 2 ^ 64 := by
  have h := readLE_lt b (ehShoffOff c) (addrSize c)
  have : (256 : Nat) ^ addrSize c ≤ 2 ^ 64 := by
    rcases c with ⟨is64⟩
    cases is64 <;> norm_num [addrSize]
  exact lt_of_lt_of_le h this

theorem shdrSize_pos (c : ElfClass) : 0 < shdrSize c ∧ shdrSize c ≤ 64 := by
  rcases c with ⟨is64⟩
  cases is64 <;> norm_num [shdrSize]

/-! ## Properties of the bounded string scan -/

theorem strnlen_le (b : Bytes) (off n : Nat) : strnlen b off n ≤ n := by
  induction n generalizing off with
  | zero => simp [strnlen]
  | succ n ih =>
    simp only [strnlen]
    split
    · omega
    · have := ih (off + 1); omega

theorem strnlen_nonzero (b : Bytes) :
    ∀ n off k, k < strnlen b off n → byteAt b (off + k) ≠ 0 := by
  intro n
  induction n with
  | zero => intro off k hk; simp [strnlen] at hk
  | succ n ih =>
    intro off k hk
    simp only [strnlen] at hk
    by_cases h0 : byteAt b off = 0
    · rw [if_pos h0] at hk; omega
    · rw [if_neg h0] at hk
      cases k with
      | zero => simpa using h0
      | succ k =>
        have := ih (off + 1) k (by omega)
        rwa [show off + 1 + k = off + (k + 1) by omega] at this

theorem strnlen_eq_first_nul (b : Bytes) :
    ∀ n off L, L < n → (∀ k < L, byteAt b (off + k) ≠ 0) →
      byteAt b (off + L) = 0 → strnlen b off n = L := by
  intro n
  induction n with
  | zero => intro off L hL; omega
  | succ n ih =>
    intro off L hL hnz hnul
    simp only [strnlen]
    cases L with
    | zero =>
      rw [if_pos (by simpa using hnul)]
    | succ L =>
      rw [if_neg (by simpa using hnz 0 (by omega))]
      have : strnlen b (off + 1) n = L := by
        refine ih (off + 1) L (by omega) ?_ ?_
        · intro k hk
          have := hnz (k + 1) (by omega)
          rwa [show off + (k + 1) = off + 1 + k by omega] at this
        · rwa [show off + (L + 1) = off + 1 + L by omega] at hnul
      omega

theorem headD_eq_getD (q : List Nat) : q.headD 0 = q.getD 0 0 := by
  cases q <;> rfl

theorem tail_getD (q : List Nat) (k : Nat) :
    q.tail.getD k 0 = q.getD (k + 1) 0 := by
  cases q <;> rfl

theorem strncmpEq_imp (b : Bytes) :
    ∀ n off (q : List Nat), (∀ k < n, byteAt b (off + k) ≠ 0) →
      strncmpEq b off q n = true →
      ∀ k < n, byteAt b (off + k) = q.getD k 0 := by
  intro n
  induction n with
  | zero => intro off q _ _ k hk; omega
  | succ n ih =>
    intro off q hnz hcmp k hk
    simp only [strncmpEq] at hcmp
    by_cases he : byteAt b off = q.headD 0
    · rw [if_pos he] at hcmp
      have h0 : byteAt b off ≠ 0 := by simpa using hnz 0 (by omega)
      rw [if_neg h0] at hcmp
      cases k with
      | zero => rw [Nat.add_zero, ← headD_eq_getD]; exact he
      | succ k =>
        have := ih (off + 1) q.tail
          (fun j hj => by
            have := hnz (j + 1) (by omega)
            rwa [show off + (j + 1) = off + 1 + j by omega] at this)
          hcmp k (by omega)
        rw [tail_getD] at this
        rwa [show off + 1 + k = off + (k + 1) by omega] at this
    · rw [if_neg he] at hcmp
      exact absurd hcmp (by simp)

theorem strncmpEq_of (b : Bytes) :
    ∀ n off (q : List Nat), (∀ k < n, byteAt b (off + k) ≠ 0) →
      (∀ k < n, byteAt b (off + k) = q.getD k 0) →
      strncmpEq b off q n = true := by
  intro n
  induction n with
  | zero => intro off q _ _; rfl
  | succ n ih =>
    intro off q hnz heq
    simp only [strncmpEq]
    have he : byteAt b off = q.headD 0 := by
      rw [headD_eq_getD]
      simpa using heq 0 (by omega)
    rw [if_pos he, if_neg (by simpa using hnz 0 (by omega))]
    refine ih (off + 1) q.tail ?_ ?_
    · intro j hj
      have := hnz (j + 1) (by omega)
      rwa [show off + (j + 1) = off + 1 + j by omega] at this
    · intro j hj
      rw [tail_getD]
      have := heq (j + 1) (by omega)
      rwa [show off + (j + 1) = off + 1 + j by omega] at this

/-! ## Claim theorems -/

/-- Claim C2: `elf_base_address(offset)` on a static image returns
`offset` unchanged; on a dynamic image it returns
`dynamic_load_base + offset` when the addition does not wrap at the
address width, and raises `InvalidProgram` exactly when
`(dynamic_load_base + offset) % 2^W < dynamic_load_base`. -/
theorem elf_base_address_spec (c : ElfClass) (base offset : Nat)
    (hb : base < 2 ^ addrBits c) (_ho : offset < 2 ^ addrBits c) :
    elf_base_address c false base offset = .ok offset ∧
    (base + offset < 2 ^ addrBits c →
      elf_base_address c true base offset = .ok (base + offset)) ∧
    (elf_base_address c true base offset = .error () ↔
      (base + offset) % 2 ^ addrBits c < base) := by
  have hbm : base % 2 ^ addrBits c = base := Nat.mod_eq_of_lt hb
  refine ⟨rfl, ?_, ?_⟩
  · intro h
    simp only [elf_base_address, if_true, hbm, Nat.mod_eq_of_lt h]
    rw [if_neg (Nat.not_lt.mpr (Nat.le_add_right base offset))]
  · simp only [elf_base_address, if_true, hbm]
    by_cases h : (base + offset) % 2 ^ addrBits c < base
    · simp [h]
    · simp [h]

/-- Witness for C2 at `W = 8`, `base = 0x400000`, `offset = 0x1000`. -/
theorem elf_base_address_spec_witness :
    elf_base_address c64 false 0x400000 0x1000 = .ok 0x1000 ∧
    elf_base_address c64 true 0x400000 0x1000 = .ok 0x401000 := by
  have h := elf_base_address_spec c64 0x400000 0x1000
    (by norm_num [addrBits, addrSize, c64]) (by norm_num [addrBits, addrSize, c64])
  exact ⟨h.1, h.2.1 (by norm_num [addrBits, addrSize, c64])⟩

/-- Claim C8: `dynamic_linking` ignores its ELF-header argument: any
two header values produce identical outcomes over the same image,
linkage configuration and initial memory. -/
theorem dynamic_linking_ignores_header (c : ElfClass) (isDyn : Bool)
    (base : Nat) (b : Bytes) (hdr1 hdr2 : Nat) (m : Mem) :
    dynamic_linking c isDyn base b hdr1 m =
      dynamic_linking c isDyn base b hdr2 m := rfl

/-- Claim C10: the register file holds exactly 32 registers;
`Registers::at` succeeds on every index below 32, returning the stored
value (what unchecked `Registers::get` reads), and raises an
out-of-range error on every index at or above 32 without touching the
array; `get` performs no bounds check (it is a total function). -/
theorem registers_at_spec (r : Registers) (idx : Nat) :
    r.m_reg.toList.length = 32 ∧
    (idx < 32 → Registers.at' r idx = .ok (Registers.get r idx)) ∧
    (32 ≤ idx → Registers.at' r idx = .error ()) := by
  refine ⟨r.m_reg.toList_length, ?_, ?_⟩
  · intro h
    simp [Registers.at', Registers.get, h]
  · intro h
    simp [Registers.at', Nat.not_lt.mpr h]

/-- Witness for C10 at a concrete register file and indices 5 and 40. -/
theorem registers_at_spec_witness :
    Registers.at' ⟨0, 0, Mathlib.Vector.replicate 32 7⟩ 5 =
      .ok (Registers.get ⟨0, 0, Mathlib.Vector.replicate 32 7⟩ 5) ∧
    Registers.at' ⟨0, 0, Mathlib.Vector.replicate 32 7⟩ 40 = .error () :=
  ⟨(registers_at_spec ⟨0, 0, Mathlib.Vector.replicate 32 7⟩ 5).2.1 (by norm_num),
   (registers_at_spec ⟨0, 0, Mathlib.Vector.replicate 32 7⟩ 40).2.2 (by norm_num)⟩

/-- Claim C3: whenever `e_shoff` does not leave room for at least one
section header before the end of the image
(`e_shoff + sizeof(SectionHeader) > len`), `section_by_name` fails
with `InvalidProgram`, for every image (including one shorter than a
single section header) and every query. -/
theorem section_by_name_shoff_guard (c : ElfClass) (b : Bytes) (q : List Nat)
    (h : e_shoff c b + shdrSize c > b.length) :
    section_by_name c b q = .error () := by
  have hE := e_shoff_lt c b
  have hs := shdrSize_pos c
  unfold section_by_name
  rcases Nat.lt_or_ge b.length (shdrSize c) with hlen | hlen
  · by_cases h1 : e_shoff c b > (b.length + 2 ^ 64 - shdrSize c) % 2 ^ 64
    · rw [if_pos h1]
    · have h2 : ((e_shoff c b + e_shstrndx c b * shdrSize c : Nat) : Int)
          > (b.length : Int) - (shdrSize c : Int) := by
        have hc : (b.length : Int) < (shdrSize c : Int) := by exact_mod_cast hlen
        have h0 : (0 : Int)
            ≤ ((e_shoff c b + e_shstrndx c b * shdrSize c : Nat) : Int) :=
          Int.ofNat_nonneg _
        omega
      rw [if_neg h1, if_pos h2]
  · have hmod : (b.length + 2 ^ 64 - shdrSize c) % 2 ^ 64
        = b.length - shdrSize c := by
      rw [show b.length + 2 ^ 64 - shdrSize c
          = (b.length - shdrSize c) + 2 ^ 64 by omega,
        Nat.add_mod_right]
      exact Nat.mod_eq_of_lt (by omega)
    have h1 : e_shoff c b > (b.length + 2 ^ 64 - shdrSize c) % 2 ^ 64 := by
      rw [hmod]; omega
    rw [if_pos h1]

/-- Witness for C3 at the empty image. -/
theorem section_by_name_shoff_guard_witness :
    section_by_name c64 [] [] = .error () :=
  section_by_name_shoff_guard c64 [] [] (by decide)

/-- Claim C6: `resolve_symbol` returns "not found" (no error) when the
image is empty, when `.symtab` is absent, when `.strtab` is absent,
and when `.symtab` has zero size. -/
theorem resolve_symbol_not_found (c : ElfClass) (b : Bytes) (q : List Nat) :
    (b.isEmpty = true → resolve_symbol c b q = .ok none) ∧
    (section_by_name c b symtabName = .ok none →
      resolve_symbol c b q = .ok none) ∧
    (∀ sh, section_by_name c b symtabName = .ok (some sh) →
      section_by_name c b strtabName = .ok none →
      resolve_symbol c b q = .ok none) ∧
    (∀ sh r, section_by_name c b symtabName = .ok (some sh) → sh.sh_size = 0 →
      section_by_name c b strtabName = .ok r →
      resolve_symbol c b q = .ok none) := by
  refine ⟨?_, ?_, ?_, ?_⟩
  · intro h; simp [resolve_symbol, h]
  · intro h; simp [resolve_symbol, h]
  · intro sh h1 h2; simp [resolve_symbol, h1, h2]
  · intro sh r h1 h0 h2
    cases r with
    | none => simp [resolve_symbol, h1, h2]
    | some st => simp [resolve_symbol, h1, h2, h0]

/-- Witness for C6: the empty image, and an image lacking `.symtab`. -/
theorem resolve_symbol_not_found_witness :
    resolve_symbol c64 [] [] = .ok none ∧
    resolve_symbol c64 linkImg symtabName = .ok none :=
  ⟨(resolve_symbol_not_found c64 [] []).1 rfl,
   (resolve_symbol_not_found c64 linkImg symtabName).2.1 rfl⟩

/-- Claim C9: `resolve_symbol` raises no error of its own: its scan
loop performs no bounds check on `strtab + st_name`, so on any image
where the `.symtab` and `.strtab` lookups do not throw, it returns a
result (a symbol or "not found") without error. -/
theorem resolve_symbol_no_error (c : ElfClass) (b : Bytes) (q : List Nat)
    (h1 : section_by_name c b symtabName ≠ .error ())
    (h2 : section_by_name c b strtabName ≠ .error ()) :
    ∃ r, resolve_symbol c b q = .ok r := by
  by_cases he : b.isEmpty
  · exact ⟨none, by simp [resolve_symbol, he]⟩
  cases hs : section_by_name c b symtabName with
  | error e => cases e; exact absurd hs h1
  | ok o =>
    cases o with
    | none => exact ⟨none, by simp [resolve_symbol, he, hs]⟩
    | some sh =>
      cases ht : section_by_name c b strtabName with
      | error e => cases e; exact absurd ht h2
      | ok o2 =>
        cases o2 with
        | none => exact ⟨none, by simp [resolve_symbol, he, hs, ht]⟩
        | some st =>
          by_cases hz : sh.sh_size = 0
          · exact ⟨none, by simp [resolve_symbol, he, hs, ht, hz]⟩
          · exact ⟨symScan c b q sh.sh_offset st.sh_offset 0
                (sh.sh_size / symSize c),
              by simp [resolve_symbol, he, hs, ht, hz]⟩

/-- Witness for C9 at the concrete minimal image. -/
theorem resolve_symbol_no_error_witness :
    ∃ r, resolve_symbol c64 linkImg strtabName = .ok r := by
  refine resolve_symbol_no_error c64 linkImg strtabName ?_ ?_
  · have e : section_by_name c64 linkImg symtabName = .ok none := rfl
    rw [e]; simp
  · have e : section_by_name c64 linkImg strtabName = .ok none := rfl
    rw [e]; simp

theorem relocStep_skip (c : ElfClass) (isDyn : Bool) (base : Nat) (b : Bytes)
    (dynOff entOff : Nat) (m : Mem)
    (h1 : stepSymType c b dynOff entOff ≠ STT_FUNC)
    (h2 : stepSymType c b dynOff entOff ≠ STT_OBJECT) :
    relocStep c isDyn base b dynOff entOff m = .ok m := by
  unfold stepSymType at h1 h2
  have hcond : ¬ (SymbolType (readSym c b
      (dynOff + relaSym c (readLE b (entOff + addrSize c) (addrSize c))
        * symSize c)).st_info = STT_FUNC ∨
    SymbolType (readSym c b
      (dynOff + relaSym c (readLE b (entOff + addrSize c) (addrSize c))
        * symSize c)).st_info = STT_OBJECT) := by
    rintro (h | h)
    · exact h1 h
    · exact h2 h
  simp only [relocStep]
  rw [if_neg hcond]

theorem relocLoop_skip (c : ElfClass) (isDyn : Bool) (base : Nat) (b : Bytes)
    (dynOff relaOff : Nat) :
    ∀ n i m, (∀ j, i ≤ j → j < i + n →
      stepSymType c b dynOff (relaOff + j * relaSize c) ≠ STT_FUNC ∧
      stepSymType c b dynOff (relaOff + j * relaSize c) ≠ STT_OBJECT) →
    relocLoop c isDyn base b dynOff relaOff i n m = .ok m := by
  intro n
  induction n with
  | zero => intro i m _; rfl
  | succ n ih =>
    intro i m hall
    have hstep := relocStep_skip c isDyn base b dynOff (relaOff + i * relaSize c)
      m (hall i le_rfl (by omega)).1 (hall i le_rfl (by omega)).2
    simp only [relocLoop, hstep]
    exact ih (i + 1) m (fun j hj1 hj2 => hall j (by omega) (by omega))

/-- Claim C7: during `relocate_section`, a relocation entry whose
referenced symbol's `st_info` type is neither `STT_FUNC` nor
`STT_OBJECT` performs no memory write and leaves the guest memory
(in particular at `elf_base_address(r_offset)`) unmodified; writes of
`st_value` happen only for FUNC- and OBJECT-typed symbols, so a pass
in which every entry has another type leaves memory untouched. -/
theorem relocate_section_skips_other_types (c : ElfClass) (isDyn : Bool)
    (base : Nat) (b : Bytes) :
    (∀ dynOff entOff m, stepSymType c b dynOff entOff ≠ STT_FUNC →
      stepSymType c b dynOff entOff ≠ STT_OBJECT →
      relocStep c isDyn base b dynOff entOff m = .ok m) ∧
    (∀ relaName symName rh dh m,
      section_by_name c b relaName = .ok (some rh) →
      section_by_name c b symName = .ok (some dh) →
      (∀ j < rh.sh_size / relaSize c,
        stepSymType c b dh.sh_offset (rh.sh_offset + j * relaSize c)
          ≠ STT_FUNC ∧
        stepSymType c b dh.sh_offset (rh.sh_offset + j * relaSize c)
          ≠ STT_OBJECT) →
      relocate_section c isDyn base b relaName symName m = .ok m) := by
  constructor
  · intro dynOff entOff m h1 h2
    exact relocStep_skip c isDyn base b dynOff entOff m h1 h2
  · intro relaName symName rh dh m hr hd hall
    simp only [relocate_section, hr, hd]
    exact relocLoop_skip c isDyn base b dh.sh_offset rh.sh_offset
      (rh.sh_size / relaSize c) 0 m
      (fun j hj1 hj2 => hall j (by omega))

theorem scanFrom_some (c : ElfClass) (b : Bytes) (q : List Nat)
    (strBase shoff : Nat) :
    ∀ n i h, scanFrom c b q strBase shoff i n = .ok (some h) →
      ∃ j, i ≤ j ∧ j < i + n ∧ h = readShdr c b (shoff + j * shdrSize c) ∧
        strnlen b (strBase + h.sh_name) (b.length - (strBase + h.sh_name))
          = q.length ∧
        strBytes b (strBase + h.sh_name)
          (strnlen b (strBase + h.sh_name) (b.length - (strBase + h.sh_name)))
          = q := by
  intro n
  induction n with
  | zero => intro i h hscan; simp [scanFrom] at hscan
  | succ n ih =>
    intro i h hscan
    simp only [scanFrom] at hscan
    split at hscan
    · exact absurd hscan (by simp)
    · split at hscan
      · rename_i hinb hcond
        have hh : h = readShdr c b (shoff + i * shdrSize c) :=
          (Option.some.inj (Except.ok.inj hscan)).symm
        refine ⟨i, le_rfl, by omega, hh, ?_, ?_⟩
        · rw [hh]; exact hcond.1
        · rw [hh]
          have hnz : ∀ k < strnlen b
              (strBase + (readShdr c b (shoff + i * shdrSize c)).sh_name)
              (b.length - (strBase + (readShdr c b (shoff + i * shdrSize c)).sh_name)),
              byteAt b ((strBase + (readShdr c b (shoff + i * shdrSize c)).sh_name) + k) ≠ 0 :=
            fun k hk => strnlen_nonzero b _ _ k hk
          have heq := strncmpEq_imp b _ _ q hnz hcond.2
          apply List.ext_getElem
          · simpa [strBytes] using hcond.1
          · intro k h1 h2
            have hk : k < strnlen b
                (strBase + (readShdr c b (shoff + i * shdrSize c)).sh_name)
                (b.length - (strBase + (readShdr c b (shoff + i * shdrSize c)).sh_name)) := by
              simpa [strBytes] using h1
            simp only [strBytes, List.getElem_map, List.getElem_range]
            rw [heq k hk, List.getD_eq_getElem q 0 h2]
      · obtain ⟨j, hj1, hj2, rest⟩ := ih (i + 1) h hscan
        exact ⟨j, by omega, by omega, rest⟩

theorem scanFrom_none (c : ElfClass) (b : Bytes) (q : List Nat)
    (strBase shoff : Nat) :
    ∀ n i, (∀ j, i ≤ j → j < i + n →
        strBase + (readShdr c b (shoff + j * shdrSize c)).sh_name < b.length ∧
        strnlen b (strBase + (readShdr c b (shoff + j * shdrSize c)).sh_name)
          (b.length - (strBase + (readShdr c b (shoff + j * shdrSize c)).sh_name))
          ≠ q.length) →
      scanFrom c b q strBase shoff i n = .ok none := by
  intro n
  induction n with
  | zero => intro i _; rfl
  | succ n ih =>
    intro i hall
    simp only [scanFrom]
    rw [if_neg (not_le.mpr (hall i le_rfl (by omega)).1)]
    rw [if_neg (by
      rintro ⟨hlen, _⟩
      exact (hall i le_rfl (by omega)).2 hlen)]
    exact ih (i + 1) (fun j hj1 hj2 => hall j (by omega) (by omega))

/-- Claim C4: `section_by_name` returns a header only when that
section's recovered name equals the query exactly — same length and
same bytes; and on a well-formed image whose every section name has a
length different from the query's (e.g. one character longer or
shorter), it returns "not found". -/
theorem section_by_name_exact_match (c : ElfClass) (b : Bytes) (q : List Nat) :
    (∀ h, section_by_name c b q = .ok (some h) →
      ∃ j, j < e_shnum c b ∧
        h = readShdr c b (e_shoff c b + j * shdrSize c) ∧
        sectNameLen c b j = q.length ∧ sectName c b j = q) ∧
    (headerOk c b →
      (∀ j, j < e_shnum c b → sectNameOff c b j < b.length ∧
        sectNameLen c b j ≠ q.length) →
      section_by_name c b q = .ok none) := by
  constructor
  · intro h hres
    unfold section_by_name at hres
    split at hres
    · exact absurd hres (by simp)
    · split at hres
      · exact absurd hres (by simp)
      · split at hres
        · exact absurd hres (by simp)
        · obtain ⟨j, hj0, hjn, hh, hlen, hbytes⟩ :=
            scanFrom_some c b q _ _ (e_shnum c b) 0 h hres
          refine ⟨j, by omega, hh, ?_, ?_⟩
          · unfold sectNameLen sectNameOff shstrBase
            rw [← hh]
            exact hlen
          · unfold sectName sectNameLen sectNameOff shstrBase
            rw [← hh]
            exact hbytes
  · intro hok hall
    unfold section_by_name
    rw [if_neg hok.1, if_neg hok.2.1, if_neg hok.2.2]
    refine scanFrom_none c b q _ _ (e_shnum c b) 0 (fun j hj1 hj2 => ?_)
    have hj := hall j (by omega)
    unfold sectNameLen sectNameOff shstrBase at hj
    exact hj

/-- Witness for C4 on the concrete image: the `.rela.dyn` lookup
returns the header whose recovered name is exactly the query, and a
10-byte query (longer than every section name) returns "not found". -/
theorem section_by_name_exact_match_witness :
    (∃ j, j < e_shnum c64 linkImg ∧
      (⟨1, 141, 24⟩ : Shdr)
        = readShdr c64 linkImg (e_shoff c64 linkImg + j * shdrSize c64) ∧
      sectNameLen c64 linkImg j = relaDynName.length ∧
      sectName c64 linkImg j = relaDynName) ∧
    section_by_name c64 linkImg
      [46, 120, 120, 120, 120, 120, 120, 120, 120, 120] = .ok none :=
  ⟨(section_by_name_exact_match c64 linkImg relaDynName).1 ⟨1, 141, 24⟩ rfl,
   (section_by_name_exact_match c64 linkImg
      [46, 120, 120, 120, 120, 120, 120, 120, 120, 120]).2
      (by decide) (by decide)⟩

/-- Claim C5: in `section_by_name`'s scan, a candidate whose name
pointer lies at or past the end of the image makes the lookup fail,
whereas a candidate name whose NUL terminator sits exactly at the last
byte of the image is accepted: if its bytes match the query it is
returned. -/
theorem scan_boundary (c : ElfClass) (b : Bytes) (q : List Nat)
    (strBase shoff i n : Nat) :
    (b.length ≤ strBase + (readShdr c b (shoff + i * shdrSize c)).sh_name →
      scanFrom c b q strBase shoff i (n + 1) = .error ()) ∧
    (∀ off, off = strBase + (readShdr c b (shoff + i * shdrSize c)).sh_name →
      off < b.length →
      byteAt b (b.length - 1) = 0 →
      (∀ k < b.length - 1 - off, byteAt b (off + k) ≠ 0) →
      q.length = b.length - 1 - off →
      (∀ k < b.length - 1 - off, q.getD k 0 = byteAt b (off + k)) →
      scanFrom c b q strBase shoff i (n + 1) =
        .ok (some (readShdr c b (shoff + i * shdrSize c)))) := by
  constructor
  · intro hge
    simp only [scanFrom]
    rw [if_pos hge]
  · intro off hoff hlt hterm hnz hlen hq
    simp only [scanFrom]
    rw [← hoff, if_neg (not_le.mpr hlt)]
    have hstrn : strnlen b off (b.length - off) = b.length - 1 - off := by
      refine strnlen_eq_first_nul b (b.length - off) off (b.length - 1 - off)
        (by omega) hnz ?_
      rw [show off + (b.length - 1 - off) = b.length - 1 by omega]
      exact hterm
    have hcond : strnlen b off (b.length - off) = q.length ∧
        strncmpEq b off q (strnlen b off (b.length - off)) = true := by
      rw [hstrn]
      exact ⟨hlen.symm,
        strncmpEq_of b (b.length - 1 - off) off q hnz
          (fun k hk => (hq k hk).symm)⟩
    rw [if_pos hcond]

/-- Witness for C5: a 66-byte buffer whose candidate name `"A"` is
terminated exactly at the last byte is accepted; the empty buffer,
whose candidate name pointer is at the buffer end, fails. -/
theorem scan_boundary_witness :
    scanFrom c64 (List.replicate 64 0 ++ [65, 0]) [65] 64 0 0 1 =
      .ok (some (readShdr c64 (List.replicate 64 0 ++ [65, 0])
        (0 + 0 * shdrSize c64))) ∧
    scanFrom c64 [] [65] 0 0 0 1 = .error () := by
  constructor
  · exact (scan_boundary c64 (List.replicate 64 0 ++ [65, 0]) [65] 64 0 0 0).2
      64 (by decide) (by decide) (by decide) (by decide) (by decide)
      (by decide)
  · exact (scan_boundary c64 [] [65] 0 0 0 0).1 (by decide)

/-- Witness for C7: a skipped step on the concrete image, and a full
pass over two entries that all reference type-0 (NOTYPE) symbols. -/
theorem relocate_section_skips_other_types_witness :
    relocStep c64 true 0x400000 linkImg 93 0 (fun _ => 0) =
      .ok (fun _ => 0) ∧
    relocate_section c64 true 0x400000 linkImg dynsymName dynsymName
      (fun _ => 0) = .ok (fun _ => 0) :=
  ⟨(relocate_section_skips_other_types c64 true 0x400000 linkImg).1 93 0
      (fun _ => 0) (by decide) (by decide),
   (relocate_section_skips_other_types c64 true 0x400000 linkImg).2
      dynsymName dynsymName ⟨11, 93, 48⟩ ⟨11, 93, 48⟩ (fun _ => 0)
      rfl rfl (by decide)⟩

/-- Claim C1: on a minimal dynamically-linked image with one
`.rela.dyn` entry with `r_offset = 0x1000` whose referenced `.dynsym`
symbol has `st_value = 0xAAAA` and `st_info` type OBJECT, after
`dynamic_linking` runs, the guest memory at
`dynamic_load_base + 0x1000` reads `0xAAAA`. -/
theorem dynamic_linking_end_to_end (base : Nat) (m : Mem) (hdr : Nat)
    (h : base + 0x1000 < 2 ^ 64) :
    ∃ m2, dynamic_linking c64 true base linkImg hdr m = .ok m2 ∧
      m2 (base + 0x1000) = 0xAAAA := by
  have hb : base < 2 ^ 64 := by omega
  refine ⟨memWrite c64 m (base + 0x1000) 0xAAAA, ?_, ?_⟩
  · have L1 : section_by_name c64 linkImg relaDynName =
        .ok (some ⟨1, 141, 24⟩) := rfl
    have L2 : section_by_name c64 linkImg dynsymName =
        .ok (some ⟨11, 93, 48⟩) := rfl
    have L3 : section_by_name c64 linkImg relaPltName = .ok none := rfl
    have hEBA : elf_base_address c64 true base 0x1000 =
        .ok (base + 0x1000) := by
      simp only [elf_base_address, if_true]
      rw [show addrBits c64 = 64 from rfl]
      rw [Nat.mod_eq_of_lt hb, Nat.mod_eq_of_lt h]
      rw [if_neg (by omega)]
    have hStep : ∀ mm, relocStep c64 true base linkImg 93 141 mm =
        .ok (memWrite c64 mm (base + 0x1000) 0xAAAA) := by
      intro mm
      simp only [relocStep]
      have e2 : readLE linkImg (141 + addrSize c64) (addrSize c64) =
          0x100000000 := rfl
      have e3 : readSym c64 linkImg
          (93 + relaSym c64 0x100000000 * symSize c64) =
          ⟨0, 1, 0xAAAA⟩ := rfl
      have e1 : readLE linkImg 141 (addrSize c64) = 0x1000 := rfl
      rw [e2, e3, e1]
      have hty : SymbolType (Sym.mk 0 1 0xAAAA).st_info = STT_FUNC ∨
          SymbolType (Sym.mk 0 1 0xAAAA).st_info = STT_OBJECT := Or.inr rfl
      rw [if_pos hty]
      simp only [hEBA]
    have hLoop : relocLoop c64 true base linkImg 93 141 0 1 m =
        .ok (memWrite c64 m (base + 0x1000) 0xAAAA) := by
      show relocLoop c64 true base linkImg 93 141 0 (0 + 1) m = _
      simp only [relocLoop]
      rw [show 141 + 0 * relaSize c64 = 141 from rfl]
      simp only [hStep m]
    simp only [dynamic_linking, relocate_section, L1, L2, L3]
    rw [show ((⟨1, 141, 24⟩ : Shdr).sh_size / relaSize c64) = 1 from rfl]
    simp only [hLoop]
  · simp only [memWrite, if_true]
    rfl

/-- Witness for C1 at `dynamic_load_base = 0x400000` and an
all-zero initial memory. -/
theorem dynamic_linking_end_to_end_witness :
    ∃ m2, dynamic_linking c64 true 0x400000 linkImg 0 (fun _ => 0) =
      .ok m2 ∧ m2 (0x400000 + 0x1000) = 0xAAAA :=
  dynamic_linking_end_to_end 0x400000 (fun _ => 0) 0 (by norm_num)

end LibRiscv
